import Mathlib

/-!
Verification of the tootoo recommendation pipeline (Rust) against its
natural-language specification, via a shallow embedding in Lean.

Source files embedded here:
- `crates/core/src/domain/contract.rs` (Contract Validator)
- `crates/core/src/domain/recommendation.rs` (domain types)
- `crates/core/src/llm/anthropic.rs` (Generation Client: truncation retry,
  repair loop, transport behaviour)
- `crates/core/src/llm/json.rs` (text extraction / reparse, for the
  round-trip property)
- `crates/worker/src/universe.rs` (Universe Builder)
- `crates/worker/src/main.rs` (Run Coordinator control flow after the date
  lock is acquired)
- `crates/core/src/ingest/kis.rs` (KIS market-data fetch retry loop)

Modelling conventions: Rust `String`/`&str` becomes `List Char` (UTF-8 byte
order and code-point order coincide, so `Ord` on Rust strings matches
lexicographic order on code points); `f64` becomes `ℚ` (the claims under
study involve only order comparisons and exact decimal constants);
`NaiveDate` and `DateTime<Utc>` become integers carried opaquely; fallible
Rust functions returning `anyhow::Result` become `Except String`.
Network and database effects are passed in as explicit inputs (oracles).
-/

set_option maxRecDepth 100000

namespace Tootoo

/-! ## Strings and trimming (`str::trim`) -/

/-- A Rust string, as its list of characters. -/
abbrev Str := List Char

/-- Whitespace test used by `str::trim`. -/
def isWS (c : Char) : Bool := c.isWhitespace

/-- Source `str::trim_start`: drop leading whitespace. -/
def trimStart (s : Str) : Str := s.dropWhile isWS

/-- Source `str::trim_end`: drop trailing whitespace. -/
def trimEnd (s : Str) : Str := (s.reverse.dropWhile isWS).reverse

/-- Source `str::trim`: drop leading and trailing whitespace. -/
def trim (s : Str) : Str := trimEnd (trimStart s)

/-! ## Domain types (`domain/recommendation.rs`, `domain/contract.rs`) -/

/-- Date type `chrono::NaiveDate`, modelled as a bare day number. -/
abbrev Date := Int

/-- Timestamp type `chrono::DateTime<Utc>`, modelled as a bare tick count. -/
abbrev Timestamp := Int

/-- Source `LlmRecommendationItem` (contract.rs): untrusted per-item model output. -/
structure LlmRecommendationItem where
  rank : Int
  ticker : Str
  name : Str
  rationale : List Str
  risk_notes : Option Str
  confidence : Option ℚ
  deriving DecidableEq

/-- Source `LlmRecommendationSnapshot` (contract.rs): untrusted model output. -/
structure LlmRecommendationSnapshot where
  as_of_date : Date
  generated_at : Timestamp
  items : List LlmRecommendationItem
  deriving DecidableEq

/-- Source `RecommendationItem` (recommendation.rs): validated item; the rationale
is a fixed triple mirroring `[String; 3]`. -/
structure RecommendationItem where
  rank : Int
  ticker : Str
  name : Str
  rationale : Str × Str × Str
  risk_notes : Option Str
  confidence : Option ℚ
  deriving DecidableEq

/-- Source `RecommendationSnapshot` (recommendation.rs): the validated domain type. -/
structure RecommendationSnapshot where
  as_of_date : Date
  generated_at : Timestamp
  items : List RecommendationItem
  deriving DecidableEq

/-! ## Contract Validator (`contract.rs`) -/

/-- The `Ok` payload built on the success path of `validate_and_into_item`:
rank and confidence are passed through, ticker, name, rationale lines and
risk notes are trimmed, and a risk note that trims to empty becomes absent
(`.map(|s| s.trim().to_string()).filter(|s| !s.is_empty())`). -/
def itemOut (it : LlmRecommendationItem) : RecommendationItem :=
  { rank := it.rank, ticker := trim it.ticker, name := trim it.name,
    rationale :=
      match it.rationale with
      | [l0, l1, l2] => (trim l0, trim l1, trim l2)
      | _ => ([], [], []),
    risk_notes := (it.risk_notes.map trim).filter (fun s => !s.isEmpty),
    confidence := it.confidence }

/-- Source `LlmRecommendationItem::validate_and_into_item`, with the `BTreeSet` of
seen ranks modelled as the list of previously inserted ranks.  On success it
returns the converted item together with the updated seen-set. -/
def validate_and_into_item (it : LlmRecommendationItem) (seen : List Int) :
    Except String (RecommendationItem × List Int) :=
  if ¬ (1 ≤ it.rank ∧ it.rank ≤ 20) then .error "rank out of range"
  else if it.rank ∈ seen then .error "duplicate rank"
  else if (trim it.ticker).isEmpty then .error "ticker must be non-empty"
  else if (trim it.name).isEmpty then .error "name must be non-empty"
  else
    match it.rationale with
    | [l0, l1, l2] =>
      if (trim l0).isEmpty || (trim l1).isEmpty || (trim l2).isEmpty then
        .error "rationale lines must be non-empty"
      else
        match it.confidence with
        | some c =>
          if ¬ (0 ≤ c ∧ c ≤ 1) then .error "confidence must be between 0 and 1"
          else .ok (itemOut it, it.rank :: seen)
        | none => .ok (itemOut it, it.rank :: seen)
    | _ => .error "rationale must have exactly 3 lines"

/-- The loop body of `validate_and_into_snapshot`: validate items in order,
threading the seen-rank set. -/
def validateItems :
    List LlmRecommendationItem → List Int →
      Except String (List RecommendationItem × List Int)
  | [], seen => .ok ([], seen)
  | it :: rest, seen =>
    match validate_and_into_item it seen with
    | .error e => .error e
    | .ok (v, seen') =>
      match validateItems rest seen' with
      | .error e => .error e
      | .ok (vs, seen'') => .ok (v :: vs, seen'')

/-- The final `for rank in 1..=20` coverage check of
`validate_and_into_snapshot`. -/
def coversAllRanks (seen : List Int) : Bool :=
  (List.range' 1 20).all (fun r => decide ((r : Int) ∈ seen))

/-- Source `LlmRecommendationSnapshot::validate_and_into_snapshot` (contract.rs). -/
def validate_and_into_snapshot (s : LlmRecommendationSnapshot)
    (expected_as_of_date : Date) : Except String RecommendationSnapshot :=
  if s.as_of_date ≠ expected_as_of_date then .error "as_of_date mismatch"
  else if s.items.length ≠ 20 then .error "must contain exactly 20 items"
  else
    match validateItems s.items [] with
    | .error e => .error e
    | .ok (items, seen) =>
      if coversAllRanks seen then
        .ok { as_of_date := s.as_of_date, generated_at := s.generated_at,
              items := items }
      else .error "missing rank"

/-! ### Characterisation of the validator -/

/-- The per-item validity conditions checked by `validate_and_into_item`,
apart from rank freshness. -/
def itemValid (it : LlmRecommendationItem) : Prop :=
  (1 ≤ it.rank ∧ it.rank ≤ 20) ∧
  trim it.ticker ≠ [] ∧ trim it.name ≠ [] ∧
  (∃ l0 l1 l2, it.rationale = [l0, l1, l2] ∧
    trim l0 ≠ [] ∧ trim l1 ≠ [] ∧ trim l2 ≠ []) ∧
  (∀ c, it.confidence = some c → 0 ≤ c ∧ c ≤ 1)

/-- Rank projection for untrusted items. -/
def rankOf (it : LlmRecommendationItem) : Int := it.rank

/-! ### Concrete fixtures used by witnesses -/

/-- A minimal well-formed untrusted item with the given rank. -/
def mkTestItem (r : Int) : LlmRecommendationItem :=
  { rank := r, ticker := ['T'], name := ['N'],
    rationale := [['a'], ['b'], ['c']],
    risk_notes := none, confidence := some 1 }

/-- A well-formed untrusted snapshot with 20 items ranked 1..20. -/
def snap20 : LlmRecommendationSnapshot :=
  { as_of_date := 0, generated_at := 0,
    items := (List.range 20).map (fun k => mkTestItem ((k : Int) + 1)) }

/-- The snapshot `snap20` validates to. -/
def snap20out : RecommendationSnapshot :=
  { as_of_date := 0, generated_at := 0, items := snap20.items.map itemOut }

/-! ## Universe Builder (`worker/src/universe.rs`)

`build_candidate_universe_db` first runs a SQL query (`LIMIT size *
oversample`, ordered by trading value descending); that external fetch is
modelled by the input list `rows`.  Everything after the fetch — the
ETF/ETN name filter, scoring, sorting and truncation — is embedded below.
Rust's `sort_by` is a stable sort under a total comparator; for rationals
(no NaN) the comparator used is a total preorder, and `List.insertionSort`
is likewise stable, so the two sorts agree on every input. -/

/-- A row of `stock_features_daily` as fetched by the query: ticker, name,
the numeric feature map decoded by `json_to_feature_map`, and the nullable
trading value. -/
structure FetchedRow where
  ticker : Str
  name : Str
  features : List (String × ℚ)
  trading_value : Option ℚ
  deriving DecidableEq

/-- Source `Candidate` (recommendation.rs). -/
structure Candidate where
  ticker : Str
  name : Str
  features : List (String × ℚ)
  deriving DecidableEq

/-- Source `UniverseOptions` (universe.rs). -/
structure UniverseOptions where
  size : Nat
  min_trading_value : Option ℚ
  oversample : Nat
  deriving DecidableEq

/-- Source `char::to_ascii_lowercase`. -/
def asciiLower (c : Char) : Char :=
  if 'A' ≤ c ∧ c ≤ 'Z' then Char.ofNat (c.toNat + 32) else c

/-- Source `str::contains` for literal substring needles. -/
def containsStr (hay needle : Str) : Bool :=
  hay.tails.any (fun t => needle.isPrefixOf t)

/-- Source `is_etf_or_etn_name` (universe.rs): conservative name-token heuristic
for passive products. -/
def is_etf_or_etn_name (name : Str) : Bool :=
  let s := trim name
  if s.isEmpty then false
  else
    let lower := s.map asciiLower
    containsStr lower ("etf".toList) || containsStr lower ("etn".toList) ||
    containsStr s ("KODEX".toList) || containsStr s ("TIGER".toList) ||
    containsStr s ("KOSEF".toList) || containsStr s ("KBSTAR".toList) ||
    containsStr s ("ARIRANG".toList) || containsStr s ("HANARO".toList) ||
    containsStr s ("SOL".toList) || containsStr s ("ACE".toList) ||
    containsStr s ("TIMEFOLIO".toList) || containsStr s ("PLUS".toList) ||
    containsStr s ("1Q".toList) || containsStr s ("RISE".toList)

/-- The composite score: `trading_value / 1e9 + ret_1d * 10`, with a missing
trading value or `ret_1d` feature defaulting to 0. -/
def rowScore (r : FetchedRow) : ℚ :=
  (r.trading_value.getD 0) / 1000000000 + (r.features.lookup "ret_1d").getD 0 * 10

/-- The `Candidate` built from a fetched row. -/
def candidateOfRow (r : FetchedRow) : Candidate :=
  { ticker := r.ticker, name := r.name, features := r.features }

/-- Lexicographic order on strings by code point; identical to Rust's
byte-wise `Ord` on `String` because UTF-8 preserves code-point order. -/
def charListLe : Str → Str → Bool
  | a :: xs, b :: ys =>
    if a.toNat < b.toNat then true
    else if b.toNat < a.toNat then false
    else charListLe xs ys
  | [], _ => true
  | _ :: _, [] => false

/-- The `sort_by` comparator of `build_candidate_universe_db`, as a
"comes no later than" test: score descending, then ticker ascending. -/
def scoredLeB (a b : ℚ × Candidate) : Bool :=
  if a.1 = b.1 then charListLe a.2.ticker b.2.ticker
  else decide (b.1 < a.1)

/-- Relation form of `scoredLeB`. -/
def scoredLe (a b : ℚ × Candidate) : Prop := scoredLeB a b = true

instance : DecidableRel scoredLe := fun a b =>
  inferInstanceAs (Decidable (scoredLeB a b = true))

/-- The rows surviving the ETF/ETN name filter. -/
def keptRows (rows : List FetchedRow) : List FetchedRow :=
  rows.filter (fun r => !is_etf_or_etn_name r.name)

/-- The scored candidate list built from the surviving rows. -/
def scoredRows (rows : List FetchedRow) : List (ℚ × Candidate) :=
  (keptRows rows).map (fun r => (rowScore r, candidateOfRow r))

/-- Source `build_candidate_universe_db` (universe.rs) from the fetch result
onwards: validate the options, drop fund/ETF names, fail if fewer than
`size` rows remain, score, sort descending by score with ticker-ascending
tie-break, and take the top `size`. -/
def build_candidate_universe (rows : List FetchedRow)
    (opts : UniverseOptions) : Except String (List Candidate) :=
  if ¬ (200 ≤ opts.size ∧ opts.size ≤ 500) then
    .error "candidate universe size must be 200..=500"
  else if ¬ (1 ≤ opts.oversample) then
    .error "UNIVERSE_OVERSAMPLE must be >= 1"
  else if (keptRows rows).length < opts.size then
    .error "insufficient candidates"
  else
    .ok (((List.insertionSort scoredLe (scoredRows rows)).take opts.size).map
      Prod.snd)

/-- A non-ETF fetched row used by the Universe Builder witness. -/
def mkRowC2 (k : Nat) : FetchedRow :=
  { ticker := ['t'], name := ['n'], features := [],
    trading_value := some ((200 - (k : Int) : ℚ)) }

/-- Two hundred eligible fetched rows. -/
def rowsC2 : List FetchedRow := (List.range 200).map mkRowC2

/-! ## Generation Client (`core/src/llm/anthropic.rs`)

Outbound calls to the model provider are modelled by oracles: `call` maps a
request's `max_tokens` to the response metadata that came back, `parse`
stands for `Self::parse_snapshot` (JSON text parsing plus contract
validation, with the expected date fixed), and `callRepair` maps the repair
attempt number to the transport outcome of that `create_message` call. -/

/-- Source `u32::MAX`, the saturation point of `saturating_mul`. -/
def u32Max : Nat := 4294967295

/-- The bumped output bound on truncation:
`self.max_tokens.saturating_mul(2).max(4096)`. -/
def bumpTokens (m : Nat) : Nat := max (min (2 * m) u32Max) 4096

/-- The response metadata consumed by the truncation check. -/
structure ProviderResponseMeta where
  stop_reason : Option Str
  deriving DecidableEq

/-- The `stop_reason` value that signals truncation. -/
def stopReasonMaxTokens : Str := "max_tokens".toList

/-- The request trace of `generate_recommendations_with_raw` lines 363-377:
send with the configured bound; if the response's stop reason is
`max_tokens`, send once more with the bumped bound.  Returns the list of
issued request bounds and the response used afterwards. -/
def generateCalls (call : Nat → ProviderResponseMeta) (configured : Nat) :
    List Nat × ProviderResponseMeta :=
  let r1 := call configured
  if r1.stop_reason = some stopReasonMaxTokens then
    ([configured, bumpTokens configured], call (bumpTokens configured))
  else ([configured], r1)

/-- An oracle whose first response always reports truncation. -/
def truncOracle : Nat → ProviderResponseMeta :=
  fun _ => { stop_reason := some stopReasonMaxTokens }

/-- An oracle that never reports truncation. -/
def noTruncOracle : Nat → ProviderResponseMeta :=
  fun _ => { stop_reason := none }

/-- Source `LlmDiagnosticsError` (llm/error.rs), with the raw JSON type abstract. -/
structure LlmDiagnostics (J : Type) where
  stage : String
  detail : String
  raw_output : Option Str
  raw_response_json : Option J
  deriving DecidableEq

/-- Source `try_parse_with_repairs` (anthropic.rs lines 290-345): parse the
initial text; on failure run the 2-iteration repair loop, each iteration
one `create_message` call (whose transport failure propagates) followed by
a re-parse; after two failed repairs return the `parse_after_repair`
diagnostic carrying the last raw text and raw JSON.  The second component
counts the repair requests issued. -/
def tryParseWithRepairs {J : Type}
    (parse : Str → Except String RecommendationSnapshot)
    (callRepair : Nat → Except (LlmDiagnostics J) (Str × J))
    (initialText : Str) (initialRawJson : J) :
    Except (LlmDiagnostics J) (RecommendationSnapshot × J) × Nat :=
  match parse initialText with
  | .ok s => (.ok (s, initialRawJson), 0)
  | .error _ =>
    match callRepair 1 with
    | .error d => (.error d, 1)
    | .ok (t1, j1) =>
      match parse t1 with
      | .ok s => (.ok (s, j1), 1)
      | .error _ =>
        match callRepair 2 with
        | .error d => (.error d, 2)
        | .ok (t2, j2) =>
          match parse t2 with
          | .ok s => (.ok (s, j2), 2)
          | .error e2 =>
            (.error { stage := "parse_after_repair",
                      detail := "final_error=" ++ e2,
                      raw_output := some t2, raw_response_json := some j2 }, 2)

/-- A parse stub that accepts only the text `"g"`. -/
def parseStub : Str → Except String RecommendationSnapshot :=
  fun t => if t = ['g'] then .ok snap20out else .error "bad"

/-- A repair oracle whose responses never parse. -/
def repairOracleBad : Nat → Except (LlmDiagnostics Nat) (Str × Nat) :=
  fun k => .ok (['x'], k)

/-- A repair oracle whose first response parses. -/
def repairOracleGood : Nat → Except (LlmDiagnostics Nat) (Str × Nat) :=
  fun _ => .ok (['g'], 7)

/-! ## Transport behaviour (anthropic.rs `create_message`, kis.rs daily
fetch loop)

`create_message` performs exactly one HTTP request: a network error or a
non-2xx status is surfaced immediately (as a `stage = "http"` diagnostic),
with no retry.  The exponential-backoff loop capped at 3 attempts lives in
the KIS market-data client (`fetch_daily_features` internals), not in the
model-provider call. -/

/-- The transport outcome of one HTTP attempt. -/
inductive HttpAttempt (B : Type) where
  | netErr (msg : String)
  | reply (status : Nat) (body : B)

/-- Source `StatusCode::is_success`. -/
def isSuccessStatus (status : Nat) : Bool := 200 ≤ status && status ≤ 299

/-- Source `AnthropicClient::create_message` (anthropic.rs lines 59-102) transport
behaviour: one send; network errors and non-2xx statuses are returned as
errors at once.  The second component counts HTTP requests issued. -/
def anthropicCreateMessage {B R : Type} (send : Nat → HttpAttempt B)
    (decode : B → Except String R) : Except String R × Nat :=
  match send 1 with
  | .netErr _ => (.error "Anthropic request failed", 1)
  | .reply status body =>
    if isSuccessStatus status then
      match decode body with
      | .ok r => (.ok r, 1)
      | .error e => (.error e, 1)
    else (.error "http", 1)

/-- The outcome of one KIS HTTP attempt: network error, or a reply with a
status and (for 2xx bodies) the JSON decode outcome. -/
inductive KisAttempt (B : Type) where
  | netErr
  | reply (status : Nat) (parsed : Except String B)

/-- Source `status == TOO_MANY_REQUESTS || status.is_server_error()`. -/
def kisRetryable (status : Nat) : Bool :=
  status == 429 || (500 ≤ status && status ≤ 599)

/-- The KIS daily-fetch retry loop (kis.rs lines 291-365): up to
`max_attempts = 3` attempts; network errors, retryable statuses (429/5xx)
and body-parse failures are retried after sleeping `2^(attempt-1)` seconds;
other failures and successes return at once.  Returns the outcome, the
number of the final attempt, and the backoff sleeps performed.  The fuel
argument only bounds the recursion; it equals `max_attempts` at the top
call and is never exhausted because the loop re-enters only while
`attempt < 3`. -/
def kisFetchGo {B : Type} (send : Nat → KisAttempt B) :
    Nat → Nat → Except String B × Nat × List Nat
  | 0, attempt => (.error "fuel exhausted", attempt - 1, [])
  | fuel + 1, attempt =>
    match send attempt with
    | .netErr =>
      if 3 ≤ attempt then (.error "request failed", attempt, [])
      else
        let rest := kisFetchGo send fuel (attempt + 1)
        (rest.1, rest.2.1, 2 ^ (attempt - 1) :: rest.2.2)
    | .reply status parsed =>
      if ¬ isSuccessStatus status then
        if kisRetryable status ∧ attempt < 3 then
          let rest := kisFetchGo send fuel (attempt + 1)
          (rest.1, rest.2.1, 2 ^ (attempt - 1) :: rest.2.2)
        else (.error "http status", attempt, [])
      else
        match parsed with
        | .ok b => (.ok b, attempt, [])
        | .error _ =>
          if 3 ≤ attempt then (.error "parse failed", attempt, [])
          else
            let rest := kisFetchGo send fuel (attempt + 1)
            (rest.1, rest.2.1, 2 ^ (attempt - 1) :: rest.2.2)

/-- The KIS daily fetch entry point: 3 attempts of fuel, starting at
attempt 1. -/
def kisFetchDaily {B : Type} (send : Nat → KisAttempt B) :
    Except String B × Nat × List Nat :=
  kisFetchGo send 3 1

/-- An oracle whose first model-provider reply is HTTP 429 and whose second
would succeed. -/
def flaky429 : Nat → HttpAttempt Nat :=
  fun k => if k = 1 then .reply 429 0 else .reply 200 0

/-- A trivial body decoder. -/
def decodeNat : Nat → Except String Nat := fun b => .ok b

/-- A KIS oracle replying 503 twice, then succeeding. -/
def kis503 : Nat → KisAttempt Nat :=
  fun k => if k < 3 then .reply 503 (.error "parse n/a") else .reply 200 (.ok 5)

/-! ## Run Coordinator (`worker/src/main.rs`, after lock acquisition)

The control flow of `main` from the successful `pg_try_advisory_lock` to
the return (lines 149-235).  The outcomes of the external effects — the
idempotency query, the universe build, client construction, the model
call, and the two persistence calls — are inputs.  `GenerateInput::try_new`
(llm/mod.rs) checks the candidate count bound 200..=500 and propagates with
`?`. -/

/-- Outcome of `persist_success`, distinguishing the unique-constraint
conflict recognised by `is_unique_violation`. -/
inductive PersistSuccessOutcome where
  | success
  | uniqueViolation
  | otherError (e : String)
  deriving DecidableEq

/-- The environment of one run: outcomes of every external effect. -/
structure RunEnv where
  idempotency : Except String Bool
  universeResult : Except String (List Candidate)
  clientOk : Except String Unit
  llmResult : Except String Unit
  persistSuccessResult : PersistSuccessOutcome
  persistFailureResult : Except String Unit

/-- What a run did on its way out. -/
structure RunResult where
  exit : Except String Unit
  lockReleased : Bool
  failurePersistAttempted : Bool

/-- Source `main` after the advisory lock is acquired:
idempotency check (`?` on query failure; release + exit 0 when a success
row exists); universe build (`?`); client construction (`?`);
`GenerateInput::try_new` (`?`); then on model success `persist_success`
(conflict benign, other errors recorded best-effort) with release, and on
model failure `persist_failure` followed by `?` — so a failed failure
record propagates before the release. -/
def runAfterLock (env : RunEnv) : RunResult :=
  match env.idempotency with
  | .error e => { exit := .error e, lockReleased := false,
                  failurePersistAttempted := false }
  | .ok true => { exit := .ok (), lockReleased := true,
                  failurePersistAttempted := false }
  | .ok false =>
    match env.universeResult with
    | .error e => { exit := .error e, lockReleased := false,
                    failurePersistAttempted := false }
    | .ok cands =>
      match env.clientOk with
      | .error e => { exit := .error e, lockReleased := false,
                      failurePersistAttempted := false }
      | .ok _ =>
        if ¬ (200 ≤ cands.length ∧ cands.length ≤ 500) then
          { exit := .error "candidate universe must be 200..=500",
            lockReleased := false, failurePersistAttempted := false }
        else
          match env.llmResult with
          | .ok _ =>
            match env.persistSuccessResult with
            | .success => { exit := .ok (), lockReleased := true,
                            failurePersistAttempted := false }
            | .uniqueViolation => { exit := .ok (), lockReleased := true,
                                    failurePersistAttempted := false }
            | .otherError _ => { exit := .ok (), lockReleased := true,
                                 failurePersistAttempted := true }
          | .error _ =>
            match env.persistFailureResult with
            | .ok _ => { exit := .ok (), lockReleased := true,
                         failurePersistAttempted := true }
            | .error pe => { exit := .error pe, lockReleased := false,
                             failurePersistAttempted := true }

/-- An environment whose universe build fails. -/
def envUniverseFail : RunEnv :=
  { idempotency := .ok false,
    universeResult := .error "insufficient candidates",
    clientOk := .ok (), llmResult := .ok (),
    persistSuccessResult := .success, persistFailureResult := .ok () }

/-- An environment whose universe build fails with the full error text. -/
def envUniverseFail2 : RunEnv :=
  { envUniverseFail with
    universeResult := .error "insufficient candidates for as_of_date" }

/-- Two hundred candidates for the generating-failure witness. -/
def candsOk : List Candidate :=
  List.replicate 200 { ticker := ['t'], name := ['n'], features := [] }

/-- An environment where generation fails after a valid universe. -/
def envLlmFail : RunEnv :=
  { idempotency := .ok false, universeResult := .ok candsOk,
    clientOk := .ok (), llmResult := .error "LLM error",
    persistSuccessResult := .success, persistFailureResult := .ok () }

/-- An environment where generation succeeds but `persist_success` fails
with a non-conflict error. -/
def envPersistFail : RunEnv :=
  { idempotency := .ok false, universeResult := .ok candsOk,
    clientOk := .ok (), llmResult := .ok (),
    persistSuccessResult := .otherError "db down",
    persistFailureResult := .ok () }

/-! ### Round-trip infrastructure (json.rs + serde derive)

Serialising a `RecommendationSnapshot` with the derived `Serialize` produces
one JSON object whose text starts with the first `{` and ends with the last
`}`, so `json::extract_json` returns the whole document and the derived
`Deserialize` for `LlmRecommendationSnapshot` recovers the same field
values (the fixed `[String; 3]` rationale becomes a 3-element vector).
`llmOfSnapshot` is that composite, expressed field-by-field. -/

/-- Re-reading a serialised validated item as an untrusted item. -/
def llmOfItem (v : RecommendationItem) : LlmRecommendationItem :=
  { rank := v.rank, ticker := v.ticker, name := v.name,
    rationale := [v.rationale.1, v.rationale.2.1, v.rationale.2.2],
    risk_notes := v.risk_notes, confidence := v.confidence }

/-- Re-reading a serialised validated snapshot as an untrusted snapshot. -/
def llmOfSnapshot (o : RecommendationSnapshot) : LlmRecommendationSnapshot :=
  { as_of_date := o.as_of_date, generated_at := o.generated_at,
    items := o.items.map llmOfItem }

/-- Validated items are already in canonical (trimmed, non-empty) form. -/
def canonicalItem (v : RecommendationItem) : Prop :=
  (1 ≤ v.rank ∧ v.rank ≤ 20) ∧
  trim v.ticker = v.ticker ∧ v.ticker ≠ [] ∧
  trim v.name = v.name ∧ v.name ≠ [] ∧
  trim v.rationale.1 = v.rationale.1 ∧ v.rationale.1 ≠ [] ∧
  trim v.rationale.2.1 = v.rationale.2.1 ∧ v.rationale.2.1 ≠ [] ∧
  trim v.rationale.2.2 = v.rationale.2.2 ∧ v.rationale.2.2 ≠ [] ∧
  (∀ t, v.risk_notes = some t → trim t = t ∧ t ≠ []) ∧
  (∀ c, v.confidence = some c → 0 ≤ c ∧ c ≤ 1)

/-! ## Claim theorems -/

/-- Per-item validity conditions other than the confidence bound and rank
freshness. -/
def itemShapeOk (it : LlmRecommendationItem) : Prop :=
  (1 ≤ it.rank ∧ it.rank ≤ 20) ∧
  trim it.ticker ≠ [] ∧ trim it.name ≠ [] ∧
  (∃ l0 l1 l2, it.rationale = [l0, l1, l2] ∧
    trim l0 ≠ [] ∧ trim l1 ≠ [] ∧ trim l2 ≠ [])

/-- The f64 literal `1.0000001` from the spec's boundary test, as an exact
rational. -/
def confJustAboveOne : ℚ := Rat.divInt 10000001 10000000

/-- A well-formed item with the given confidence. -/
def confItem (c : Option ℚ) : LlmRecommendationItem :=
  { mkTestItem 1 with confidence := c }

/-- An accepted item whose risk note is whitespace only. -/
def wsItem : LlmRecommendationItem :=
  { mkTestItem 1 with risk_notes := some [' ', ' '] }

/-- A valid 20-item snapshot whose first item has a whitespace-only risk
note. -/
def snapC10 : LlmRecommendationSnapshot :=
  { as_of_date := 0, generated_at := 0,
    items := wsItem :: (List.range 19).map (fun k => mkTestItem ((k : Int) + 2)) }

/-! ## Proof development -/

theorem dropWhile_dropWhile (p : Char → Bool) :
    ∀ l : Str, (l.dropWhile p).dropWhile p = l.dropWhile p := by
  intro l
  induction l with
  | nil => rfl
  | cons a t ih =>
    by_cases h : p a
    · simp only [List.dropWhile_cons, h, if_true]
      exact ih
    · simp [List.dropWhile_cons, h]

theorem dropWhile_eq_self_of_append (p : Char → Bool) (l r : Str)
    (h : (l ++ r).dropWhile p = l ++ r) : l.dropWhile p = l := by
  cases l with
  | nil => rfl
  | cons a t =>
    have hpa : p a = false := by
      by_contra hpa
      have hpa' : p a = true := by
        cases hh : p a
        · exact absurd hh hpa
        · rfl
      rw [List.cons_append, List.dropWhile_cons, hpa', if_pos rfl] at h
      have hlen := congrArg List.length h
      have hle : ((t ++ r).dropWhile p).length ≤ (t ++ r).length := by
        have := List.Sublist.length_le (List.dropWhile_sublist (p := p) (l := t ++ r))
        exact this
      simp only [List.length_cons] at hlen
      omega
    rw [List.dropWhile_cons, hpa]
    simp

theorem trimEnd_trimEnd (l : Str) : trimEnd (trimEnd l) = trimEnd l := by
  unfold trimEnd
  rw [List.reverse_reverse, dropWhile_dropWhile]

theorem trimStart_trimEnd_of_trimStarted (l : Str) (h : l.dropWhile isWS = l) :
    trimStart (trimEnd l) = trimEnd l := by
  obtain ⟨u, hu⟩ := List.dropWhile_suffix (l := l.reverse) isWS
  have hl : trimEnd l ++ u.reverse = l := by
    have := congrArg List.reverse hu
    simpa [trimEnd, List.reverse_append] using this
  unfold trimStart
  apply dropWhile_eq_self_of_append isWS (trimEnd l) u.reverse
  rw [hl, h]

theorem trim_trim (s : Str) : trim (trim s) = trim s := by
  unfold trim
  rw [trimStart_trimEnd_of_trimStarted (trimStart s) (dropWhile_dropWhile isWS s),
    trimEnd_trimEnd]

theorem item_ok_spec (it : LlmRecommendationItem) (seen : List Int)
    (v : RecommendationItem) (seen' : List Int)
    (h : validate_and_into_item it seen = .ok (v, seen')) :
    itemValid it ∧ it.rank ∉ seen ∧ v = itemOut it ∧ seen' = it.rank :: seen := by
  unfold validate_and_into_item at h
  split at h
  · exact absurd h (by simp)
  rename_i hrange
  rw [not_not] at hrange
  split at h
  · exact absurd h (by simp)
  rename_i hdup
  split at h
  · exact absurd h (by simp)
  rename_i hticker
  split at h
  · exact absurd h (by simp)
  rename_i hname
  split at h
  rotate_left
  · exact absurd h (by simp)
  rename_i l0 l1 l2 hrat
  split at h
  · exact absurd h (by simp)
  rename_i hlines
  simp only [Bool.or_eq_true, List.isEmpty_iff, not_or] at hticker hname hlines
  have hne : trim l0 ≠ [] ∧ trim l1 ≠ [] ∧ trim l2 ≠ [] :=
    ⟨hlines.1.1, hlines.1.2, hlines.2⟩
  split at h
  · rename_i c hconf
    split at h
    · exact absurd h (by simp)
    · rename_i hc
      rw [not_not] at hc
      cases h
      refine ⟨⟨hrange, hticker, hname,
        ⟨l0, l1, l2, hrat, hne.1, hne.2.1, hne.2.2⟩, ?_⟩, hdup, rfl, rfl⟩
      intro c' hc'
      rw [hconf] at hc'
      cases hc'
      exact hc
  · rename_i hconf
    cases h
    refine ⟨⟨hrange, hticker, hname,
      ⟨l0, l1, l2, hrat, hne.1, hne.2.1, hne.2.2⟩, ?_⟩, hdup, rfl, rfl⟩
    intro c' hc'
    rw [hconf] at hc'
    cases hc'

theorem item_ok_of_valid (it : LlmRecommendationItem) (seen : List Int)
    (h1 : itemValid it) (h2 : it.rank ∉ seen) :
    validate_and_into_item it seen = .ok (itemOut it, it.rank :: seen) := by
  obtain ⟨hrange, hticker, hname, ⟨l0, l1, l2, hrat, h0, hh1, hh2⟩, hconf⟩ := h1
  unfold validate_and_into_item
  rw [if_neg (by exact not_not_intro hrange), if_neg h2]
  rw [if_neg (by simpa [List.isEmpty_iff] using hticker),
    if_neg (by simpa [List.isEmpty_iff] using hname)]
  simp only [hrat]
  rw [if_neg (by simp [List.isEmpty_iff, h0, hh1, hh2])]
  cases hc : it.confidence with
  | none => rfl
  | some c =>
    have hcc := hconf c hc
    simp [hcc.1, hcc.2]

theorem validateItems_ok_spec :
    ∀ (items : List LlmRecommendationItem) (seen : List Int)
      (out : List RecommendationItem) (seen' : List Int),
      validateItems items seen = .ok (out, seen') →
      out = items.map itemOut ∧
      seen' = (items.map rankOf).reverse ++ seen ∧
      (∀ it ∈ items, itemValid it) ∧
      (items.map rankOf).Nodup ∧
      (∀ r ∈ items.map rankOf, r ∉ seen) := by
  intro items
  induction items with
  | nil =>
    intro seen out seen' h
    cases h
    simp
  | cons it rest ih =>
    intro seen out seen' h
    unfold validateItems at h
    cases hstep : validate_and_into_item it seen with
    | error e => simp only [hstep] at h; exact absurd h (by simp)
    | ok p =>
      obtain ⟨v, seen1⟩ := p
      simp only [hstep] at h
      cases hrest : validateItems rest seen1 with
      | error e => simp only [hrest] at h; exact absurd h (by simp)
      | ok q =>
        obtain ⟨vs, seen2⟩ := q
        simp only [hrest] at h
        injection h with h'
        injection h' with h1 h2
        subst h1 h2
        obtain ⟨hvalid, hfresh, hv, hseen1⟩ := item_ok_spec it seen v seen1 hstep
        obtain ⟨hout, hseen2, hall, hnodup, hdisj⟩ := ih seen1 vs seen2 hrest
        subst hv hseen1
        refine ⟨by simp [hout], ?_, ?_, ?_, ?_⟩
        · rw [hseen2]
          simp [rankOf, List.append_assoc]
        · intro x hx
          cases hx with
          | head => exact hvalid
          | tail _ hx1 => exact hall x hx1
        · simp only [List.map_cons, List.nodup_cons]
          refine ⟨fun hmem => ?_, hnodup⟩
          have := hdisj (rankOf it) hmem
          simp [rankOf] at this
        · intro r hr
          simp only [List.map_cons, List.mem_cons] at hr
          rcases hr with hr | hr
          · subst hr
            exact hfresh
          · have := hdisj r hr
            intro hmem
            exact this (by simp [List.mem_cons, hmem])

theorem validateItems_ok_of :
    ∀ (items : List LlmRecommendationItem) (seen : List Int),
      (∀ it ∈ items, itemValid it) →
      (items.map rankOf).Nodup →
      (∀ r ∈ items.map rankOf, r ∉ seen) →
      validateItems items seen =
        .ok (items.map itemOut, (items.map rankOf).reverse ++ seen) := by
  intro items
  induction items with
  | nil => intro seen _ _ _; simp [validateItems]
  | cons it rest ih =>
    intro seen hall hnodup hdisj
    simp only [List.map_cons, List.nodup_cons] at hnodup
    have hstep := item_ok_of_valid it seen (hall it (by simp)) (hdisj it.rank (by simp [rankOf]))
    have hdisj' : ∀ r ∈ rest.map rankOf, r ∉ it.rank :: seen := by
      intro r hr
      simp only [List.mem_cons, not_or]
      constructor
      · intro heq
        apply hnodup.1
        rw [heq] at hr
        simpa [rankOf] using hr
      · exact hdisj r (by simp [hr])
    have hrest := ih (it.rank :: seen) (fun x hx => hall x (by simp [hx])) hnodup.2 hdisj'
    unfold validateItems
    simp only [hstep, hrest]
    simp [rankOf, List.append_assoc]

theorem coversAllRanks_iff (seen : List Int) :
    coversAllRanks seen = true ↔ ∀ r : Int, 1 ≤ r → r ≤ 20 → r ∈ seen := by
  unfold coversAllRanks
  rw [List.all_eq_true]
  constructor
  · intro h r hr1 hr2
    have hmem : r.toNat ∈ List.range' 1 20 := by
      rw [List.mem_range'_1]
      omega
    have := h r.toNat hmem
    rw [decide_eq_true_eq] at this
    have hcast : ((r.toNat : Int)) = r := by omega
    rwa [hcast] at this
  · intro h n hn
    rw [List.mem_range'_1] at hn
    rw [decide_eq_true_eq]
    exact h n (by omega) (by omega)

theorem snapshot_ok_spec (s : LlmRecommendationSnapshot) (d : Date)
    (out : RecommendationSnapshot)
    (h : validate_and_into_snapshot s d = .ok out) :
    s.as_of_date = d ∧ s.items.length = 20 ∧
    out = ⟨s.as_of_date, s.generated_at, s.items.map itemOut⟩ ∧
    (∀ it ∈ s.items, itemValid it) ∧
    (s.items.map rankOf).Nodup ∧
    (∀ r : Int, r ∈ s.items.map rankOf ↔ 1 ≤ r ∧ r ≤ 20) := by
  unfold validate_and_into_snapshot at h
  split at h
  · exact absurd h (by simp)
  rename_i hdate
  rw [not_not] at hdate
  split at h
  · exact absurd h (by simp)
  rename_i hlen
  rw [not_not] at hlen
  cases hitems : validateItems s.items [] with
  | error e => simp only [hitems] at h; exact absurd h (by simp)
  | ok p =>
    obtain ⟨items, seen⟩ := p
    simp only [hitems] at h
    obtain ⟨hout, hseen, hall, hnodup, _⟩ :=
      validateItems_ok_spec s.items [] items seen hitems
    by_cases hcov : coversAllRanks seen = true
    · rw [if_pos hcov] at h
      have hsnap : out = ⟨s.as_of_date, s.generated_at, items⟩ := by
        cases h
        rfl
      refine ⟨hdate, hlen, by rw [hsnap, hout], hall, hnodup, ?_⟩
      intro r
      constructor
      · intro hr
        obtain ⟨it, hit, hrank⟩ := List.exists_of_mem_map hr
        have hv := hall it hit
        rw [← hrank]
        exact ⟨(hv.1).1, (hv.1).2⟩
      · intro ⟨hr1, hr2⟩
        have := (coversAllRanks_iff seen).mp hcov r hr1 hr2
        rw [hseen] at this
        simpa using this
    · rw [if_neg hcov] at h
      exact absurd h (by simp)

theorem snapshot_ok_of (s : LlmRecommendationSnapshot) (d : Date)
    (hdate : s.as_of_date = d) (hlen : s.items.length = 20)
    (hall : ∀ it ∈ s.items, itemValid it)
    (hnodup : (s.items.map rankOf).Nodup)
    (hcover : ∀ r : Int, 1 ≤ r → r ≤ 20 → r ∈ s.items.map rankOf) :
    validate_and_into_snapshot s d =
      .ok ⟨s.as_of_date, s.generated_at, s.items.map itemOut⟩ := by
  have hcov : coversAllRanks ((s.items.map rankOf).reverse ++ []) = true := by
    rw [coversAllRanks_iff]
    intro r hr1 hr2
    simpa using hcover r hr1 hr2
  unfold validate_and_into_snapshot
  rw [if_neg (not_not_intro hdate), if_neg (not_not_intro hlen)]
  simp only [validateItems_ok_of s.items [] hall hnodup (by simp), hcov, if_true]

theorem except_error_of_not_ok {ε α : Type} :
    ∀ x : Except ε α, (∀ a, x ≠ .ok a) → ∃ e, x = .error e
  | .error e, _ => ⟨e, rfl⟩
  | .ok a, h => absurd rfl (h a)

theorem out_ranks_eq (s : LlmRecommendationSnapshot) :
    (s.items.map itemOut).map RecommendationItem.rank = s.items.map rankOf := by
  rw [List.map_map]
  rfl

theorem charListLe_total : ∀ a b : Str, charListLe a b || charListLe b a := by
  intro a
  induction a with
  | nil => intro b; simp [charListLe]
  | cons x xs ih =>
    intro b
    cases b with
    | nil => simp [charListLe]
    | cons y ys =>
      unfold charListLe
      rcases Nat.lt_trichotomy x.toNat y.toNat with h | h | h
      · simp [h]
      · simp only [h, Nat.lt_irrefl, if_false]
        simpa using ih ys
      · simp [h, Nat.lt_asymm h]

theorem charListLe_trans :
    ∀ a b c : Str, charListLe a b → charListLe b c → charListLe a c := by
  intro a
  induction a with
  | nil => intro b c _ _; simp [charListLe]
  | cons x xs ih =>
    intro b c hab hbc
    cases b with
    | nil => simp [charListLe] at hab
    | cons y ys =>
      cases c with
      | nil => simp [charListLe] at hbc
      | cons z zs =>
        unfold charListLe at hab hbc ⊢
        rcases Nat.lt_trichotomy x.toNat y.toNat with hxy | hxy | hxy <;>
          rcases Nat.lt_trichotomy y.toNat z.toNat with hyz | hyz | hyz
        · simp [Nat.lt_trans hxy hyz]
        · simp [hyz ▸ hxy]
        · simp [Nat.lt_asymm hyz, hyz] at hbc
        · simp [hxy ▸ hyz]
        · simp only [hxy, Nat.lt_irrefl, if_false] at hab ⊢
          simp only [hyz, Nat.lt_irrefl, if_false] at hbc ⊢
          exact ih ys zs hab hbc
        · simp [Nat.lt_asymm hyz, hyz] at hbc
        · simp [Nat.lt_asymm hxy, hxy] at hab
        · simp [Nat.lt_asymm hxy, hxy] at hab
        · simp [Nat.lt_asymm hxy, hxy] at hab

theorem scoredLe_total (a b : ℚ × Candidate) : scoredLe a b ∨ scoredLe b a := by
  unfold scoredLe scoredLeB
  by_cases h : a.1 = b.1
  · rw [if_pos h, if_pos h.symm]
    simpa using charListLe_total a.2.ticker b.2.ticker
  · rw [if_neg h, if_neg (fun hh => h hh.symm)]
    rcases lt_or_gt_of_ne h with hlt | hgt
    · right
      simpa using hlt
    · left
      simpa using hgt

theorem scoredLe_trans (a b c : ℚ × Candidate) :
    scoredLe a b → scoredLe b c → scoredLe a c := by
  unfold scoredLe scoredLeB
  by_cases hab : a.1 = b.1 <;> by_cases hbc : b.1 = c.1
  · rw [if_pos hab, if_pos hbc, if_pos (hab.trans hbc)]
    exact charListLe_trans _ _ _
  · rw [if_pos hab, if_neg hbc, if_neg (show ¬ a.1 = c.1 by rw [hab]; exact hbc)]
    intro _ h2
    rw [hab]
    exact h2
  · rw [if_neg hab, if_pos hbc,
      if_neg (show ¬ a.1 = c.1 from fun he => hab (he.trans hbc.symm))]
    intro h1 _
    rw [← hbc]
    exact h1
  · rw [if_neg hab, if_neg hbc]
    intro h1 h2
    simp only [decide_eq_true_eq] at h1 h2
    have hca : c.1 < a.1 := lt_trans h2 h1
    rw [if_neg (fun he => lt_irrefl _ (he ▸ hca))]
    simpa using hca

/-- Claim C2: with `size ∈ [200, 500]` and `oversample ≥ 1`, the Universe
Builder either fails with the insufficient-candidates error (exactly when
fewer than `size` rows survive the fund/ETF name filter) or returns exactly
`size` candidates, namely the first `size` entries of a permutation of the
scored survivors sorted descending by `score = trading_value/1e9 +
ret_1d*10` with ticker-ascending tie-break; an accepted result never has
any other length. -/
theorem universe_exact_size_or_insufficient (rows : List FetchedRow)
    (opts : UniverseOptions) (hs : 200 ≤ opts.size ∧ opts.size ≤ 500)
    (ho : 1 ≤ opts.oversample) :
    ((keptRows rows).length < opts.size →
      build_candidate_universe rows opts = .error "insufficient candidates") ∧
    (opts.size ≤ (keptRows rows).length →
      ∃ out sc, build_candidate_universe rows opts = .ok out ∧
        out.length = opts.size ∧ sc.Perm (scoredRows rows) ∧
        List.Pairwise scoredLe sc ∧
        out = (sc.take opts.size).map Prod.snd) ∧
    (∀ out, build_candidate_universe rows opts = .ok out →
      out.length = opts.size) := by
  have hsort_perm := List.perm_insertionSort scoredLe (scoredRows rows)
  have hsort_sorted :=
    @List.sorted_insertionSort _ scoredLe _ ⟨fun a b => scoredLe_total a b⟩
      ⟨fun a b c => scoredLe_trans a b c⟩ (scoredRows rows)
  have hscorelen : (scoredRows rows).length = (keptRows rows).length := by
    rw [scoredRows, List.length_map]
  unfold build_candidate_universe
  rw [if_neg (not_not_intro hs), if_neg (not_not_intro ho)]
  refine ⟨?_, ?_, ?_⟩
  · intro hlt
    rw [if_pos hlt]
  · intro hge
    rw [if_neg (not_lt.mpr hge)]
    refine ⟨_, List.insertionSort scoredLe (scoredRows rows), rfl, ?_,
      hsort_perm, hsort_sorted, rfl⟩
    rw [List.length_map, List.length_take, hsort_perm.length_eq, hscorelen]
    exact Nat.min_eq_left hge
  · intro out hok
    by_cases hlt : (keptRows rows).length < opts.size
    · rw [if_pos hlt] at hok
      exact absurd hok (by simp)
    · rw [if_neg hlt] at hok
      have hout : out =
          ((List.insertionSort scoredLe (scoredRows rows)).take opts.size).map
            Prod.snd := by
        injection hok with h
        exact h.symm
      rw [hout, List.length_map, List.length_take, hsort_perm.length_eq,
        hscorelen]
      exact Nat.min_eq_left (not_lt.mp hlt)

theorem universe_exact_size_or_insufficient_witness :
    ∃ out sc,
      build_candidate_universe rowsC2 ⟨200, none, 1⟩ = .ok out ∧
      out.length = (⟨200, none, 1⟩ : UniverseOptions).size ∧
      sc.Perm (scoredRows rowsC2) ∧ List.Pairwise scoredLe sc ∧
      out = (sc.take (⟨200, none, 1⟩ : UniverseOptions).size).map Prod.snd :=
  (universe_exact_size_or_insufficient rowsC2 ⟨200, none, 1⟩
    (by decide) (by decide)).2.1 (by decide)

/-- Claim C5, counterexample: with the configured bound 2^31 and a
truncated first response, the retry is issued with bound
`u32::MAX = 4294967295` (saturating multiplication), not with twice the
configured bound `2^32 = 4294967296` as the claim states. -/
theorem truncation_retry_bound_counterexample :
    (generateCalls truncOracle 2147483648).1 = [2147483648, 4294967295] ∧
    max (2 * 2147483648) 4096 = 4294967296 ∧
    (4294967295 : Nat) ≠ 4294967296 := by
  refine ⟨rfl, by decide, by decide⟩

/-- Claim C5, amended: if the first response reports truncation the client
retries exactly once with the bound `saturating_mul(2).max(4096)` — twice
the configured bound saturated at `u32::MAX`, floor 4096 — and without
truncation no retry is issued; whenever doubling does not overflow `u32`,
the retry bound is exactly `max (2 * configured) 4096`. -/
theorem truncation_retry (call : Nat → ProviderResponseMeta) (m : Nat) :
    ((call m).stop_reason = some stopReasonMaxTokens →
      (generateCalls call m).1 = [m, bumpTokens m]) ∧
    ((call m).stop_reason ≠ some stopReasonMaxTokens →
      (generateCalls call m).1 = [m]) ∧
    (2 * m ≤ u32Max → bumpTokens m = max (2 * m) 4096) := by
  refine ⟨?_, ?_, ?_⟩
  · intro h
    simp [generateCalls, h]
  · intro h
    simp [generateCalls, h]
  · intro h
    rw [bumpTokens, Nat.min_eq_left h]

theorem truncation_retry_witness :
    (generateCalls truncOracle 2048).1 = [2048, bumpTokens 2048] ∧
    (generateCalls noTruncOracle 2048).1 = [2048] ∧
    bumpTokens 2048 = max (2 * 2048) 4096 :=
  ⟨(truncation_retry truncOracle 2048).1 rfl,
    (truncation_retry noTruncOracle 2048).2.1 (by simp [noTruncOracle]),
    (truncation_retry truncOracle 2048).2.2 (by decide)⟩

/-- Claim C6: at most 2 repair requests are issued; when the initial parse
and both repair parses fail, the result is the `parse_after_repair`
diagnostic embedding the last raw text and raw JSON; when a repair parse
succeeds, the returned snapshot and raw JSON come from that repair
response, not from the original output. -/
theorem repair_loop_spec {J : Type}
    (parse : Str → Except String RecommendationSnapshot)
    (callRepair : Nat → Except (LlmDiagnostics J) (Str × J))
    (t0 : Str) (j0 : J) :
    ((tryParseWithRepairs parse callRepair t0 j0).2 ≤ 2) ∧
    (∀ e0 t1 j1 e1 t2 j2 e2,
      parse t0 = .error e0 → callRepair 1 = .ok (t1, j1) →
      parse t1 = .error e1 → callRepair 2 = .ok (t2, j2) →
      parse t2 = .error e2 →
      (tryParseWithRepairs parse callRepair t0 j0).1 =
        .error { stage := "parse_after_repair",
                 detail := "final_error=" ++ e2,
                 raw_output := some t2, raw_response_json := some j2 }) ∧
    (∀ e0 t1 j1 s,
      parse t0 = .error e0 → callRepair 1 = .ok (t1, j1) → parse t1 = .ok s →
      (tryParseWithRepairs parse callRepair t0 j0).1 = .ok (s, j1)) ∧
    (∀ e0 t1 j1 e1 t2 j2 s,
      parse t0 = .error e0 → callRepair 1 = .ok (t1, j1) →
      parse t1 = .error e1 → callRepair 2 = .ok (t2, j2) → parse t2 = .ok s →
      (tryParseWithRepairs parse callRepair t0 j0).1 = .ok (s, j2)) := by
  refine ⟨?_, ?_, ?_, ?_⟩
  · cases h0 : parse t0 with
    | ok s => simp [tryParseWithRepairs, h0]
    | error e0 =>
      cases h1 : callRepair 1 with
      | error d => simp [tryParseWithRepairs, h0, h1]
      | ok p1 =>
        obtain ⟨t1, j1⟩ := p1
        cases h2 : parse t1 with
        | ok s => simp [tryParseWithRepairs, h0, h1, h2]
        | error e1 =>
          cases h3 : callRepair 2 with
          | error d => simp [tryParseWithRepairs, h0, h1, h2, h3]
          | ok p2 =>
            obtain ⟨t2, j2⟩ := p2
            cases h4 : parse t2 with
            | ok s => simp [tryParseWithRepairs, h0, h1, h2, h3, h4]
            | error e2 => simp [tryParseWithRepairs, h0, h1, h2, h3, h4]
  · intro e0 t1 j1 e1 t2 j2 e2 h0 h1 h2 h3 h4
    simp [tryParseWithRepairs, h0, h1, h2, h3, h4]
  · intro e0 t1 j1 s h0 h1 h2
    simp [tryParseWithRepairs, h0, h1, h2]
  · intro e0 t1 j1 e1 t2 j2 s h0 h1 h2 h3 h4
    simp [tryParseWithRepairs, h0, h1, h2, h3, h4]

theorem repair_loop_spec_witness :
    ((tryParseWithRepairs parseStub repairOracleBad ['x'] 0).1 =
      .error { stage := "parse_after_repair", detail := "final_error=" ++ "bad",
               raw_output := some ['x'], raw_response_json := some 2 }) ∧
    ((tryParseWithRepairs parseStub repairOracleGood ['x'] 0).1 =
      .ok (snap20out, 7)) ∧
    ((tryParseWithRepairs parseStub repairOracleBad ['x'] 0).2 ≤ 2) :=
  ⟨(repair_loop_spec parseStub repairOracleBad ['x'] 0).2.1
      "bad" ['x'] 1 "bad" ['x'] 2 "bad" rfl rfl rfl rfl rfl,
    (repair_loop_spec parseStub repairOracleGood ['x'] 0).2.2.1
      "bad" ['g'] 7 snap20out rfl rfl rfl,
    (repair_loop_spec parseStub repairOracleBad ['x'] 0).1⟩

theorem kisFetchGo_spec {B : Type} (send : Nat → KisAttempt B) :
    ∀ fuel attempt, 1 ≤ attempt → attempt ≤ 3 → attempt + fuel = 4 →
      attempt ≤ (kisFetchGo send fuel attempt).2.1 ∧
      (kisFetchGo send fuel attempt).2.1 ≤ 3 ∧
      (kisFetchGo send fuel attempt).2.2 =
        (List.range' (attempt - 1)
          ((kisFetchGo send fuel attempt).2.1 - attempt)).map (fun k => 2 ^ k) := by
  intro fuel
  induction fuel with
  | zero =>
    intro attempt h1 h3 h4
    omega
  | succ f ih =>
    intro attempt h1 h3 h4
    have hstep :
        ∀ r : Except String B × Nat × List Nat,
          attempt < 3 →
          r = (let rest := kisFetchGo send f (attempt + 1)
               (rest.1, rest.2.1, 2 ^ (attempt - 1) :: rest.2.2)) →
          attempt ≤ r.2.1 ∧ r.2.1 ≤ 3 ∧
          r.2.2 = (List.range' (attempt - 1) (r.2.1 - attempt)).map
            (fun k => 2 ^ k) := by
      intro r hlt hr
      obtain ⟨ih1, ih2, ih3⟩ :=
        ih (attempt + 1) (by omega) (by omega) (by omega)
      subst hr
      refine ⟨by simpa using Nat.le_trans (Nat.le_succ attempt) ih1,
        by simpa using ih2, ?_⟩
      have hcount : (kisFetchGo send f (attempt + 1)).2.1 - attempt =
          ((kisFetchGo send f (attempt + 1)).2.1 - (attempt + 1)) + 1 := by
        omega
      simp only [hcount, List.range'_succ]
      have hbase : attempt - 1 + 1 = attempt := by omega
      simp only [List.map_cons, hbase]
      exact congrArg (fun l => 2 ^ (attempt - 1) :: l) ih3
    cases hs : send attempt with
    | netErr =>
      by_cases ha : 3 ≤ attempt
      · simp [kisFetchGo, hs, ha]
        omega
      · have := hstep _ (by omega) rfl
        simpa [kisFetchGo, hs, ha] using this
    | reply status parsed =>
      by_cases hsuc : isSuccessStatus status
      · cases hp : parsed with
        | ok b =>
          simp [kisFetchGo, hs, hsuc, hp]
          omega
        | error e =>
          by_cases ha : 3 ≤ attempt
          · simp [kisFetchGo, hs, hsuc, hp, ha]
            omega
          · have := hstep _ (by omega) rfl
            simpa [kisFetchGo, hs, hsuc, hp, ha] using this
      · by_cases hretry : kisRetryable status ∧ attempt < 3
        · have := hstep _ hretry.2 rfl
          simpa [kisFetchGo, hs, hsuc, hretry] using this
        · simp [kisFetchGo, hs, hsuc, hretry]
          omega

/-- Claim C9, counterexample: an HTTP 429 reply to the model-provider call
is surfaced after exactly one request — `create_message` has no transport
retry — even though an immediate retry would have succeeded. -/
theorem transport_retry_counterexample :
    (anthropicCreateMessage flaky429 decodeNat).2 = 1 ∧
    (anthropicCreateMessage flaky429 decodeNat).1 = .error "http" ∧
    (anthropicCreateMessage (fun _ => .reply 200 0) decodeNat).1 = .ok 0 :=
  ⟨rfl, rfl, rfl⟩

/-- Claim C9, amended: the model-provider call issues exactly one HTTP
request and surfaces network errors and non-2xx statuses immediately,
without retry; the exponential-backoff retry bounded by 3 attempts (sleeps
of `2^(attempt-1)` seconds) belongs to the KIS market-data fetch; the
2 output-shape repair attempts remain distinct from both. -/
theorem transport_retry_amended {B R : Type} (send : Nat → HttpAttempt B)
    (decode : B → Except String R) (ksend : Nat → KisAttempt B) :
    (anthropicCreateMessage send decode).2 = 1 ∧
    (∀ status body, send 1 = .reply status body →
      isSuccessStatus status = false →
      (anthropicCreateMessage send decode).1 = .error "http") ∧
    (∀ msg, send 1 = .netErr msg →
      (anthropicCreateMessage send decode).1 =
        .error "Anthropic request failed") ∧
    1 ≤ (kisFetchDaily ksend).2.1 ∧ (kisFetchDaily ksend).2.1 ≤ 3 ∧
    (kisFetchDaily ksend).2.2 =
      (List.range ((kisFetchDaily ksend).2.1 - 1)).map (fun k => 2 ^ k) := by
  obtain ⟨hk1, hk2, hk3⟩ := kisFetchGo_spec ksend 3 1 (by omega) (by omega)
    (by omega)
  refine ⟨?_, ?_, ?_, hk1, hk2, ?_⟩
  · cases hs : send 1 with
    | netErr msg => simp [anthropicCreateMessage, hs]
    | reply status body =>
      by_cases hsuc : isSuccessStatus status
      · cases hd : decode body with
        | ok r => simp [anthropicCreateMessage, hs, hsuc, hd]
        | error e => simp [anthropicCreateMessage, hs, hsuc, hd]
      · simp [anthropicCreateMessage, hs, hsuc]
  · intro status body hsend hfail
    simp [anthropicCreateMessage, hsend, hfail]
  · intro msg hsend
    simp [anthropicCreateMessage, hsend]
  · rw [List.range_eq_range']
    exact hk3

theorem transport_retry_amended_witness :
    (anthropicCreateMessage flaky429 decodeNat).2 = 1 ∧
    (anthropicCreateMessage flaky429 decodeNat).1 = .error "http" ∧
    1 ≤ (kisFetchDaily kis503).2.1 ∧ (kisFetchDaily kis503).2.1 ≤ 3 ∧
    (kisFetchDaily kis503).2.2 =
      (List.range ((kisFetchDaily kis503).2.1 - 1)).map (fun k => 2 ^ k) :=
  ⟨(transport_retry_amended flaky429 decodeNat kis503).1,
    (transport_retry_amended flaky429 decodeNat kis503).2.1 429 0 rfl rfl,
    (transport_retry_amended flaky429 decodeNat kis503).2.2.2.1,
    (transport_retry_amended flaky429 decodeNat kis503).2.2.2.2.1,
    (transport_retry_amended flaky429 decodeNat kis503).2.2.2.2.2⟩

/-- Claim C3, counterexample: a run that acquired the date lock and whose
Universe Builder fails propagates the error with `?` (main.rs line 162)
and returns without releasing the lock — contradicting the claim that the
universe-builder failure path releases the lock before returning. -/
theorem lock_release_counterexample :
    runAfterLock envUniverseFail =
      { exit := .error "insufficient candidates", lockReleased := false,
        failurePersistAttempted := false } := rfl

/-- Claim C3, amended: after the lock is acquired it is released exactly on
the paths that exit successfully — success, benign no-op after the
idempotency check, persistence conflict, other persistence error (recorded
best-effort), and generation failure whose failure record succeeds.  On
every error-propagating exit (idempotency-query failure, universe-builder
failure, client-construction failure, candidate-count failure, failed
failure record) the lock is not released and only auto-expires with the
database session. -/
theorem lock_release_iff_clean_exit (env : RunEnv) :
    (runAfterLock env).lockReleased = (runAfterLock env).exit.isOk := by
  cases h1 : env.idempotency with
  | error e => simp [runAfterLock, h1, Except.isOk, Except.toBool]
  | ok b =>
    cases b with
    | true => simp [runAfterLock, h1, Except.isOk, Except.toBool]
    | false =>
      cases h2 : env.universeResult with
      | error e => simp [runAfterLock, h1, h2, Except.isOk, Except.toBool]
      | ok cands =>
        cases h3 : env.clientOk with
        | error e => simp [runAfterLock, h1, h2, h3, Except.isOk, Except.toBool]
        | ok u =>
          by_cases hsz : 200 ≤ cands.length ∧ cands.length ≤ 500
          · cases h4 : env.llmResult with
            | ok v =>
              cases h5 : env.persistSuccessResult <;>
                simp [runAfterLock, h1, h2, h3, h4, h5, hsz, Except.isOk, Except.toBool]
            | error e =>
              cases h5 : env.persistFailureResult <;>
                simp [runAfterLock, h1, h2, h3, h4, h5, hsz, Except.isOk, Except.toBool]
          · simp [runAfterLock, h1, h2, h3, hsz, Except.isOk, Except.toBool]

/-- Claim C4, counterexample: when the Universe Builder errors, the run
propagates the error and exits without any `persist_failure` call — no
Failure row is recorded for that generating-stage error. -/
theorem generating_failure_record_counterexample :
    (runAfterLock envUniverseFail2).failurePersistAttempted = false ∧
    (runAfterLock envUniverseFail2).exit =
      .error "insufficient candidates for as_of_date" :=
  ⟨rfl, rfl⟩

/-- Claim C4, amended: every Generation Client error leads to a
`persist_failure` attempt before the run exits, and a non-conflict
`persist_success` error after successful generation is likewise recorded
best-effort; a Universe Builder error, by contrast, propagates immediately
and no Failure record is attempted. -/
theorem generating_failure_record (env : RunEnv) :
    (∀ cands e, env.idempotency = .ok false →
      env.universeResult = .ok cands → env.clientOk = .ok () →
      200 ≤ cands.length → cands.length ≤ 500 →
      env.llmResult = .error e →
      (runAfterLock env).failurePersistAttempted = true) ∧
    (∀ cands e, env.idempotency = .ok false →
      env.universeResult = .ok cands → env.clientOk = .ok () →
      200 ≤ cands.length → cands.length ≤ 500 →
      env.llmResult = .ok () →
      env.persistSuccessResult = .otherError e →
      (runAfterLock env).failurePersistAttempted = true) ∧
    (∀ e, env.idempotency = .ok false → env.universeResult = .error e →
      (runAfterLock env).failurePersistAttempted = false ∧
      (runAfterLock env).exit = .error e) := by
  refine ⟨?_, ?_, ?_⟩
  · intro cands e h1 h2 h3 h4 h5 h6
    simp only [runAfterLock, h1, h2, h3]
    rw [if_neg (not_not_intro ⟨h4, h5⟩)]
    simp only [h6]
    cases env.persistFailureResult <;> rfl
  · intro cands e h1 h2 h3 h4 h5 h6 h7
    simp only [runAfterLock, h1, h2, h3]
    rw [if_neg (not_not_intro ⟨h4, h5⟩)]
    simp only [h6, h7]
  · intro e h1 h2
    refine ⟨?_, ?_⟩ <;> simp [runAfterLock, h1, h2]

theorem generating_failure_record_witness :
    (runAfterLock envLlmFail).failurePersistAttempted = true ∧
    (runAfterLock envPersistFail).failurePersistAttempted = true ∧
    (runAfterLock envUniverseFail2).failurePersistAttempted = false :=
  ⟨(generating_failure_record envLlmFail).1 candsOk "LLM error" rfl rfl rfl
      (by simp [candsOk]) (by simp [candsOk]) rfl,
    (generating_failure_record envPersistFail).2.1 candsOk "db down" rfl rfl rfl
      (by simp [candsOk]) (by simp [candsOk]) rfl rfl,
    ((generating_failure_record envUniverseFail2).2.2
      "insufficient candidates for as_of_date" rfl rfl).1⟩

theorem itemOut_canonical (it : LlmRecommendationItem) (h : itemValid it) :
    canonicalItem (itemOut it) := by
  obtain ⟨hrange, hticker, hname, ⟨l0, l1, l2, hrat, h0, h1, h2⟩, hconf⟩ := h
  simp only [canonicalItem, itemOut, hrat]
  refine ⟨hrange, trim_trim _, hticker, trim_trim _, hname,
    trim_trim _, h0, trim_trim _, h1, trim_trim _, h2, ?_, hconf⟩
  intro t ht
  cases hr : it.risk_notes with
  | none => rw [hr] at ht; cases ht
  | some x =>
    rw [hr] at ht
    by_cases hx : (trim x).isEmpty
    · simp [Option.filter, hx] at ht
    · simp [Option.filter, hx] at ht
      subst ht
      exact ⟨trim_trim x, by simpa [List.isEmpty_iff] using hx⟩

theorem llmOfItem_valid (v : RecommendationItem) (h : canonicalItem v) :
    itemValid (llmOfItem v) := by
  obtain ⟨hrange, ht1, ht2, hn1, hn2, hr11, hr12, hr21, hr22, hr31, hr32,
    hrisk, hconf⟩ := h
  exact ⟨hrange, by rw [llmOfItem]; rw [ht1]; exact ht2,
    by rw [llmOfItem]; rw [hn1]; exact hn2,
    ⟨v.rationale.1, v.rationale.2.1, v.rationale.2.2, rfl,
      by rw [hr11]; exact hr12, by rw [hr21]; exact hr22,
      by rw [hr31]; exact hr32⟩, hconf⟩

theorem itemOut_llmOfItem (v : RecommendationItem) (h : canonicalItem v) :
    itemOut (llmOfItem v) = v := by
  obtain ⟨hrange, ht1, ht2, hn1, hn2, hr11, hr12, hr21, hr22, hr31, hr32,
    hrisk, hconf⟩ := h
  simp only [itemOut, llmOfItem]
  have hrisknotes :
      (v.risk_notes.map trim).filter (fun s => !s.isEmpty) = v.risk_notes := by
    cases hr : v.risk_notes with
    | none => rfl
    | some t =>
      obtain ⟨htt, hte⟩ := hrisk t hr
      simp [Option.filter, htt, List.isEmpty_iff, hte]
  rw [hrisknotes, hr11, hr21, hr31, ht1, hn1]

theorem map_itemOut_llmOfItem (l : List RecommendationItem)
    (h : ∀ v ∈ l, canonicalItem v) :
    (l.map llmOfItem).map itemOut = l := by
  rw [List.map_map]
  induction l with
  | nil => rfl
  | cons v t ih =>
    simp only [List.map_cons]
    rw [ih (fun x hx => h x (by simp [hx]))]
    rw [Function.comp_apply, itemOut_llmOfItem v (h v (by simp))]

theorem llm_ranks_eq (l : List RecommendationItem) :
    (l.map llmOfItem).map rankOf = l.map RecommendationItem.rank := by
  rw [List.map_map]
  rfl

/-- Claim C1: `validate_and_into_snapshot` accepts only inputs with exactly
20 items whose ranks are exactly the set `{1..20}` with no duplicates; for
every accepted input the output ranks are exactly `{1..20}` with no
duplicates; and any input with item count ≠ 20, a rank outside `[1,20]`, or
a duplicated rank is rejected with an error. -/
theorem validator_rank_contract (s : LlmRecommendationSnapshot) (d : Date) :
    (∀ out, validate_and_into_snapshot s d = .ok out →
      s.items.length = 20 ∧
      (s.items.map rankOf).Nodup ∧
      (∀ r : Int, r ∈ s.items.map rankOf ↔ 1 ≤ r ∧ r ≤ 20) ∧
      (out.items.map RecommendationItem.rank).Nodup ∧
      (∀ r : Int, r ∈ out.items.map RecommendationItem.rank ↔ 1 ≤ r ∧ r ≤ 20)) ∧
    (s.items.length ≠ 20 → ∃ e, validate_and_into_snapshot s d = .error e) ∧
    ((∃ it ∈ s.items, ¬ (1 ≤ it.rank ∧ it.rank ≤ 20)) →
      ∃ e, validate_and_into_snapshot s d = .error e) ∧
    (¬ (s.items.map rankOf).Nodup →
      ∃ e, validate_and_into_snapshot s d = .error e) := by
  refine ⟨?_, ?_, ?_, ?_⟩
  · intro out hok
    obtain ⟨_, hlen, hout, _, hnodup, hiff⟩ := snapshot_ok_spec s d out hok
    have houtranks : out.items.map RecommendationItem.rank = s.items.map rankOf := by
      rw [hout]
      exact out_ranks_eq s
    exact ⟨hlen, hnodup, hiff, houtranks ▸ hnodup, fun r => houtranks ▸ hiff r⟩
  · intro hlen
    apply except_error_of_not_ok
    intro out hok
    exact hlen (snapshot_ok_spec s d out hok).2.1
  · rintro ⟨it, hit, hbad⟩
    apply except_error_of_not_ok
    intro out hok
    obtain ⟨_, _, _, _, _, hiff⟩ := snapshot_ok_spec s d out hok
    exact hbad ((hiff it.rank).mp (List.mem_map_of_mem rankOf hit))
  · intro hdup
    apply except_error_of_not_ok
    intro out hok
    exact hdup (snapshot_ok_spec s d out hok).2.2.2.2.1

theorem map_rank_itemOut (l : List LlmRecommendationItem) :
    (l.map itemOut).map RecommendationItem.rank = l.map rankOf := by
  rw [List.map_map]
  rfl

/-- Claim C7: any snapshot produced by the Contract Validator, when
serialised and re-validated against the same expected date, validates
successfully to an equal snapshot. -/
theorem roundtrip_revalidate (raw : LlmRecommendationSnapshot) (d : Date)
    (snap : RecommendationSnapshot)
    (h : validate_and_into_snapshot raw d = .ok snap) :
    validate_and_into_snapshot (llmOfSnapshot snap) d = .ok snap := by
  obtain ⟨hdate, hlen, hout, hall, hnodup, hiff⟩ := snapshot_ok_spec raw d snap h
  have hitems : snap.items = raw.items.map itemOut := by rw [hout]
  have hcanon : ∀ v ∈ snap.items, canonicalItem v := by
    intro v hv
    rw [hitems] at hv
    obtain ⟨it, hit, rfl⟩ := List.exists_of_mem_map hv
    exact itemOut_canonical it (hall it hit)
  have hranks : (llmOfSnapshot snap).items.map rankOf = raw.items.map rankOf := by
    show (snap.items.map llmOfItem).map rankOf = _
    rw [llm_ranks_eq, hitems, map_rank_itemOut]
  have key := snapshot_ok_of (llmOfSnapshot snap) d
    (by show snap.as_of_date = d; rw [hout]; exact hdate)
    (by show (snap.items.map llmOfItem).length = 20
        rw [List.length_map, hitems, List.length_map]; exact hlen)
    (by intro it hit
        obtain ⟨v, hv, rfl⟩ := List.exists_of_mem_map hit
        exact llmOfItem_valid v (hcanon v hv))
    (by rw [hranks]; exact hnodup)
    (by rw [hranks]; intro r hr1 hr2; exact (hiff r).mpr ⟨hr1, hr2⟩)
  rw [key,
    show (llmOfSnapshot snap).items.map itemOut = snap.items from
      map_itemOut_llmOfItem snap.items hcanon]
  exact rfl

theorem roundtrip_revalidate_witness :
    validate_and_into_snapshot snap20 0 = .ok snap20out ∧
    validate_and_into_snapshot (llmOfSnapshot snap20out) 0 = .ok snap20out :=
  ⟨rfl, roundtrip_revalidate snap20 0 snap20out rfl⟩

/-- Claim C8: for an item that passes every other check, a present
confidence is accepted exactly when it lies in the closed interval
`[0, 1]`, and an absent confidence is always accepted. -/
theorem confidence_accepted_iff (it : LlmRecommendationItem)
    (seen : List Int) (hshape : itemShapeOk it) (hseen : it.rank ∉ seen) :
    ((∃ res, validate_and_into_item it seen = .ok res) ↔
      ∀ c, it.confidence = some c → 0 ≤ c ∧ c ≤ 1) ∧
    (it.confidence = none →
      ∃ res, validate_and_into_item it seen = .ok res) := by
  obtain ⟨hrange, hticker, hname, hrat⟩ := hshape
  constructor
  · constructor
    · rintro ⟨⟨v, seen'⟩, hres⟩
      exact (item_ok_spec it seen v seen' hres).1.2.2.2.2
    · intro hconf
      exact ⟨(itemOut it, it.rank :: seen),
        item_ok_of_valid it seen ⟨hrange, hticker, hname, hrat, hconf⟩ hseen⟩
  · intro hnone
    refine ⟨(itemOut it, it.rank :: seen),
      item_ok_of_valid it seen ⟨hrange, hticker, hname, hrat, ?_⟩ hseen⟩
    intro c hc
    rw [hnone] at hc
    cases hc

theorem confidence_accepted_iff_witness :
    (∃ res, validate_and_into_item (confItem (some 0)) [] = .ok res) ∧
    (∃ res, validate_and_into_item (confItem (some 1)) [] = .ok res) ∧
    (∃ res, validate_and_into_item (confItem none) [] = .ok res) ∧
    ¬ (∃ res, validate_and_into_item (confItem (some confJustAboveOne)) [] = .ok res) ∧
    ¬ (∃ res, validate_and_into_item (confItem (some (-1))) [] = .ok res) := by
  have hshape : ∀ c, itemShapeOk (confItem c) := fun c =>
    ⟨show ((1 : Int) ≤ 1 ∧ (1 : Int) ≤ 20) by decide,
      show trim ['T'] ≠ [] by decide,
      show trim ['N'] ≠ [] by decide,
      ⟨['a'], ['b'], ['c'], rfl, by decide, by decide, by decide⟩⟩
  have hseen : ∀ c, (confItem c).rank ∉ ([] : List Int) := fun c => by simp
  refine ⟨?_, ?_, ?_, ?_, ?_⟩
  · refine ((confidence_accepted_iff (confItem (some 0)) [] (hshape _) (hseen _)).1).mpr ?_
    intro c hc
    cases hc
    decide
  · refine ((confidence_accepted_iff (confItem (some 1)) [] (hshape _) (hseen _)).1).mpr ?_
    intro c hc
    cases hc
    decide
  · exact (confidence_accepted_iff (confItem none) [] (hshape _) (hseen _)).2 rfl
  · intro hex
    have := ((confidence_accepted_iff (confItem (some confJustAboveOne)) []
      (hshape _) (hseen _)).1).mp hex confJustAboveOne rfl
    exact absurd this.2 (by decide)
  · intro hex
    have := ((confidence_accepted_iff (confItem (some (-1))) []
      (hshape _) (hseen _)).1).mp hex (-1) rfl
    exact absurd this.1 (by decide)

/-- Claim C10, counterexample: the validator accepts `snapC10`, whose first
item carries the risk note `"  "`; the output's first risk note is `none`,
whereas the trimmed input risk note is `some ""` — so the output risk note
does not equal the input value with whitespace trimmed. -/
theorem risk_note_not_trimmed_counterexample :
    (validate_and_into_snapshot snapC10 0).toOption.map
        (fun o => o.items.map RecommendationItem.risk_notes) =
      some (List.replicate 20 none) ∧
    snapC10.items.map (fun it => it.risk_notes.map trim) =
      some [] :: List.replicate 19 none ∧
    (some (some ([] : Str)) : Option (Option Str)) ≠ some none := by
  refine ⟨rfl, rfl, by decide⟩

/-- Claim C10, amended: for every accepted input the output items appear in
input order; the i-th output item's rank and confidence equal the i-th
input item's; its ticker, name and rationale lines are the input values
trimmed; and its risk note is the trimmed input risk note except that a
risk note which is empty after trimming becomes absent. -/
theorem validator_preserves_order_and_trims (s : LlmRecommendationSnapshot)
    (d : Date) (out : RecommendationSnapshot)
    (h : validate_and_into_snapshot s d = .ok out) :
    out.items.length = s.items.length ∧
    ∀ k : Nat,
      out.items[k]?.map RecommendationItem.rank = s.items[k]?.map rankOf ∧
      out.items[k]?.map RecommendationItem.confidence =
        s.items[k]?.map LlmRecommendationItem.confidence ∧
      out.items[k]?.map RecommendationItem.ticker =
        s.items[k]?.map (fun it => trim it.ticker) ∧
      out.items[k]?.map RecommendationItem.name =
        s.items[k]?.map (fun it => trim it.name) ∧
      out.items[k]?.map (fun v => [v.rationale.1, v.rationale.2.1, v.rationale.2.2]) =
        s.items[k]?.map (fun it => it.rationale.map trim) ∧
      out.items[k]?.map RecommendationItem.risk_notes =
        s.items[k]?.map
          (fun it => (it.risk_notes.map trim).filter (fun t => !t.isEmpty)) := by
  obtain ⟨_, _, hout, hall, _, _⟩ := snapshot_ok_spec s d out h
  have hitems : out.items = s.items.map itemOut := by rw [hout]
  refine ⟨by rw [hitems, List.length_map], ?_⟩
  intro k
  cases hk : s.items[k]? with
  | none => simp [hitems, List.getElem?_map, hk]
  | some it =>
    have hmem : it ∈ s.items := by
      have := List.getElem?_eq_some.mp hk
      obtain ⟨hlt, hget⟩ := this
      exact hget ▸ List.getElem_mem hlt
    obtain ⟨_, _, _, ⟨l0, l1, l2, hrat, _, _, _⟩, _⟩ := hall it hmem
    simp [hitems, List.getElem?_map, hk, itemOut, rankOf, hrat]

theorem validator_preserves_order_and_trims_witness :
    validate_and_into_snapshot snapC10 0 = .ok
      ⟨0, 0, snapC10.items.map itemOut⟩ ∧
    (⟨0, 0, snapC10.items.map itemOut⟩ : RecommendationSnapshot).items.length =
      snapC10.items.length ∧
    ((⟨0, 0, snapC10.items.map itemOut⟩ : RecommendationSnapshot).items[0]?.map
        RecommendationItem.risk_notes =
      snapC10.items[0]?.map
        (fun it => (it.risk_notes.map trim).filter (fun t => !t.isEmpty))) :=
  ⟨rfl, (validator_preserves_order_and_trims snapC10 0 _ rfl).1,
    ((validator_preserves_order_and_trims snapC10 0 _ rfl).2 0).2.2.2.2.2⟩

theorem validator_rank_contract_witness :
    validate_and_into_snapshot snap20 0 = .ok snap20out ∧
    (snap20.items.length = 20 ∧
      (snap20.items.map rankOf).Nodup ∧
      (∀ r : Int, r ∈ snap20.items.map rankOf ↔ 1 ≤ r ∧ r ≤ 20) ∧
      (snap20out.items.map RecommendationItem.rank).Nodup ∧
      (∀ r : Int, r ∈ snap20out.items.map RecommendationItem.rank ↔
        1 ≤ r ∧ r ≤ 20)) :=
  ⟨rfl, (validator_rank_contract snap20 0).1 snap20out rfl⟩

end Tootoo

